import Mathlib

/-!
Verification development for the m3u8-proxy repository.

The embedded code is the fetch router (`src/unnamed/part_000`): the signed-URL
token codec (`generateSignedUrl` / `verifySignedUrl`), the TTL-bounded resource
store (a `node-cache` instance with `stdTTL: 600`), the manifest-rewriting route
`GET /` and the resolution route `GET /segment/resource`.

Modelling conventions:
* JavaScript strings are Lean `String`s; the JS helpers actually used by the
  code (`String.prototype.trim`, `String.prototype.startsWith`, `split('\n')`,
  `parseInt(·, 10)`) are re-defined here on `List Char` so that they compute by
  kernel reduction.  JS `trim` strips Unicode whitespace; the model strips the
  ASCII whitespace recognised by `Char.isWhitespace`, which covers every
  character the proxy's inputs can contain on the trimmed side of a manifest
  line (space, tab, CR, LF).
* `crypto.createHmac('sha256', SECRET_KEY).update(p).digest('hex')` is an
  arbitrary function `hmac : String → String` of the payload `p`; the secret is
  folded into the function.  Claims that need collision-freeness take
  `Function.Injective hmac` as a hypothesis.
* `Date.now()` is an explicit `now : Nat` parameter (UNIX seconds, already
  divided by 1000 and floored as the code does).
* `uuidv4()` is an explicit supply `uuids : Nat → String` consumed at an
  explicit counter position, so freshness is a hypothesis, not an axiom.
-/

namespace M3U8Proxy

/-- JavaScript `String.prototype.trim`, modelled on the character list:
drop whitespace from the left, then from the right. -/
def jsTrim (s : String) : String :=
  ⟨((s.data.dropWhile Char.isWhitespace).reverse.dropWhile Char.isWhitespace).reverse⟩

/-- JavaScript `String.prototype.startsWith p`, modelled on character lists. -/
def beginsWith (p s : String) : Bool :=
  p.data.isPrefixOf s.data

/-- Split a character list on a separator character, one group per occurrence,
matching JavaScript `split` (an empty string yields `[""]`, a trailing
separator yields a trailing empty group). -/
def splitOnChar (c : Char) : List Char → List (List Char)
  | [] => [[]]
  | x :: xs =>
    if x = c then [] :: splitOnChar c xs
    else
      match splitOnChar c xs with
      | [] => [[x]]
      | g :: gs => (x :: g) :: gs

/-- JavaScript `s.split('\n')`. -/
def jsSplitNL (s : String) : List String :=
  (splitOnChar '\n' s.data).map (fun l => ⟨l⟩)

/-- Numeric value of a list of decimal digit characters, most significant
first, as `parseInt` accumulates it. -/
def digitsVal (cs : List Char) : Nat :=
  cs.foldl (fun a c => 10 * a + (c.toNat - 48)) 0

/-- JavaScript `parseInt(s, 10)`: skip leading whitespace, read an optional
sign, then the longest run of decimal digits, ignoring everything after it.
`none` models the `NaN` result (no digits found). -/
def jsParseInt (s : String) : Option Int :=
  match s.data.dropWhile Char.isWhitespace with
  | [] => none
  | c :: rest =>
    if c = '-' then
      let ds := rest.takeWhile Char.isDigit
      if ds.isEmpty then none else some (-(digitsVal ds : Int))
    else if c = '+' then
      let ds := rest.takeWhile Char.isDigit
      if ds.isEmpty then none else some ((digitsVal ds : Int))
    else
      let ds := (c :: rest).takeWhile Char.isDigit
      if ds.isEmpty then none else some ((digitsVal ds : Int))

/-- Decimal digit characters of a natural number, most significant first;
reference rendering used to reason about `Nat.repr` (JS `${n}` for an
integral number). -/
def natDigits (n : Nat) : List Char :=
  if h : n < 10 then [Nat.digitChar n]
  else natDigits (n / 10) ++ [Nat.digitChar (n % 10)]
decreasing_by exact Nat.div_lt_self (by omega) (by omega)

theorem natDigits_lt (n : Nat) (h : n < 10) : natDigits n = [Nat.digitChar n] := by
  unfold natDigits
  simp [h]

theorem natDigits_ge (n : Nat) (h : ¬ n < 10) :
    natDigits n = natDigits (n / 10) ++ [Nat.digitChar (n % 10)] := by
  conv_lhs => unfold natDigits
  simp [h]

theorem natDigits_ne_nil (n : Nat) : natDigits n ≠ [] := by
  by_cases h : n < 10
  · rw [natDigits_lt n h]; simp
  · rw [natDigits_ge n h]; simp

/-- Every character produced by `Nat.digitChar` on an input below 10 is a
decimal digit, is not whitespace, and is not a sign character. -/
theorem digitChar_props (m : Nat) (h : m < 10) :
    (Nat.digitChar m).isDigit = true ∧ (Nat.digitChar m).isWhitespace = false ∧
      Nat.digitChar m ≠ '-' ∧ Nat.digitChar m ≠ '+' := by
  interval_cases m <;> exact ⟨by decide, by decide, by decide, by decide⟩

theorem natDigits_all_digit (n : Nat) :
    ∀ c ∈ natDigits n, c.isDigit = true ∧ c.isWhitespace = false ∧
      c ≠ '-' ∧ c ≠ '+' := by
  by_cases h : n < 10
  · rw [natDigits_lt n h]
    intro c hc
    simp at hc
    subst hc
    exact digitChar_props n h
  · rw [natDigits_ge n h]
    intro c hc
    rcases List.mem_append.1 hc with h1 | h2
    · exact natDigits_all_digit (n / 10) c h1
    · simp at h2
      subst h2
      exact digitChar_props (n % 10) (Nat.mod_lt _ (by omega))
decreasing_by exact Nat.div_lt_self (by omega) (by omega)

theorem digitChar_val (m : Nat) (h : m < 10) : (Nat.digitChar m).toNat - 48 = m := by
  interval_cases m <;> decide

theorem foldl_digitsVal (n : Nat) :
    ∀ a : Nat, (natDigits n).foldl (fun a c => 10 * a + (c.toNat - 48)) a
      = a * 10 ^ (natDigits n).length + n := by
  by_cases h : n < 10
  · intro a
    rw [natDigits_lt n h]
    simp [List.foldl, digitChar_val n h]
    ring
  · intro a
    rw [natDigits_ge n h]
    rw [List.foldl_append]
    rw [foldl_digitsVal (n / 10)]
    simp [List.foldl, digitChar_val (n % 10) (Nat.mod_lt _ (by omega)),
      List.length_append, pow_succ]
    have := Nat.div_add_mod n 10
    ring_nf
    omega
decreasing_by exact Nat.div_lt_self (by omega) (by omega)

theorem digitsVal_natDigits (n : Nat) : digitsVal (natDigits n) = n := by
  unfold digitsVal
  rw [foldl_digitsVal n 0]
  simp

/-- The characters of `Nat.repr n` are exactly `natDigits n`. -/
theorem repr_data (n : Nat) : (Nat.repr n).data = natDigits n := by
  have core : ∀ fuel m ds, m < fuel →
      Nat.toDigitsCore 10 fuel m ds = natDigits m ++ ds := by
    intro fuel
    induction fuel with
    | zero => intro m ds h; omega
    | succ f ih =>
      intro m ds h
      show Nat.toDigitsCore 10 (f + 1) m ds = natDigits m ++ ds
      rw [Nat.toDigitsCore]
      by_cases h0 : m / 10 = 0
      · have hm : m < 10 := by omega
        simp only [h0, if_pos rfl]
        rw [natDigits_lt m hm, Nat.mod_eq_of_lt hm]
        rfl
      · have hm : ¬ m < 10 := by
          intro hc
          exact h0 (Nat.div_eq_of_lt hc)
        simp only [h0, if_neg h0]
        rw [ih (m / 10) _ (by
          have : m / 10 < m := Nat.div_lt_self (by omega) (by omega)
          omega)]
        rw [natDigits_ge m hm]
        simp
  show (Nat.toDigits 10 n).asString.data = natDigits n
  rw [Nat.toDigits, core (n + 1) n [] (by omega)]
  simp [List.asString]

theorem takeWhile_digits (cs : List Char) (h : ∀ c ∈ cs, c.isDigit = true) :
    cs.takeWhile Char.isDigit = cs := by
  induction cs with
  | nil => rfl
  | cons x xs ih =>
    rw [List.takeWhile_cons]
    rw [h x (by simp)]
    simp [ih (fun c hc => h c (by simp [hc]))]

/-- Round trip: `parseInt(String(n), 10) = n` for every natural number `n`. -/
theorem jsParseInt_repr (n : Nat) : jsParseInt (Nat.repr n) = some (n : Int) := by
  unfold jsParseInt
  rw [repr_data]
  obtain ⟨c, rest, hcr⟩ : ∃ c rest, natDigits n = c :: rest := by
    cases hnd : natDigits n with
    | nil => exact absurd hnd (natDigits_ne_nil n)
    | cons c rest => exact ⟨c, rest, rfl⟩
  have hall := natDigits_all_digit n
  rw [hcr] at hall
  have hc := hall c (by simp)
  have hdw : (c :: rest).dropWhile Char.isWhitespace = c :: rest := by
    rw [List.dropWhile_cons, hc.2.1]
    simp
  have htw : (c :: rest).takeWhile Char.isDigit = c :: rest := by
    exact takeWhile_digits _ (fun d hd => (hall d hd).1)
  rw [hcr, hdw]
  simp only [if_neg hc.2.2.1, if_neg hc.2.2.2, htw]
  have hne : (c :: rest).isEmpty = false := by simp
  rw [hne]
  simp only [Bool.false_eq_true, if_false]
  have : digitsVal (c :: rest) = n := by
    rw [← hcr]
    exact digitsVal_natDigits n
  rw [this]

/-- Token validity window used by `generateSignedUrl`: 600 seconds. -/
def TOKEN_VALIDITY : Nat := 600

/-- Expiry stamped into a token minted at `now`: `Math.floor(Date.now() / 1000) + 600`. -/
def mintExp (now : Nat) : Nat := now + TOKEN_VALIDITY

/-- Payload signed by the codec: the template literal
`resourceId ++ exp ++ type` with `exp` already rendered as a decimal string. -/
def signPayload (resourceId exp type : String) : String :=
  resourceId ++ exp ++ type

/-- Signature minted by `generateSignedUrl`: the keyed hash of the payload
built from the freshly computed expiry. -/
def mintSig (hmac : String → String) (resourceId type : String) (now : Nat) : String :=
  hmac (signPayload resourceId (Nat.repr (mintExp now)) type)

/-- Embedding of `generateSignedUrl`: the returned local URL string
`/fetch/segment/resource?resourceId=...&sig=...&exp=...`. -/
def generateSignedUrl (hmac : String → String) (resourceId type : String) (now : Nat) : String :=
  "/fetch/segment/resource?resourceId=" ++ resourceId ++ "&sig=" ++
    mintSig hmac resourceId type now ++ "&exp=" ++ Nat.repr (mintExp now)

/-- Expiry test of `verifySignedUrl`: `parseInt(exp, 10) < now`.  When
`parseInt` yields `NaN` (modelled `none`) the JS comparison `NaN < now` is
false, so the test does not reject. -/
def expInPast (exp : String) (now : Nat) : Bool :=
  match jsParseInt exp with
  | some v => decide (v < (now : Int))
  | none => false

/-- Embedding of `verifySignedUrl`: reject when the expiry test fires,
otherwise compare the supplied signature with the recomputed one. -/
def verifySignedUrl (hmac : String → String) (resourceId sig exp type : String)
    (now : Nat) : Bool :=
  if expInPast exp now then false
  else sig == hmac (signPayload resourceId exp type)

/-- Store TTL configured at `new NodeCache(\x7b stdTTL: 600 \x7d)`. -/
def STORE_TTL : Nat := 600

/-- The resource store: insertion-ordered entries `(resourceId, remoteUrl, insertedAt)`,
most recent first. -/
abbrev Store := List (String × String × Nat)

/-- Modelled from the spec: `node-cache` is an external npm dependency whose
implementation is not in this repository; per spec §4.2, `put` inserts or
overwrites and restarts the TTL countdown.  Overwrite is modelled by
prepending, so the most recent insertion for a key shadows older ones. -/
def storePut (st : Store) (resourceId remoteUrl : String) (now : Nat) : Store :=
  (resourceId, remoteUrl, now) :: st

/-- Modelled from the spec: per spec §4.2, `get` is absent if the key was
never inserted or if the TTL has elapsed since insertion, with no distinction
between the two; an entry inserted at `t` is readable while `now < t + TTL`. -/
def storeGet (st : Store) (resourceId : String) (now : Nat) : Option String :=
  match st with
  | [] => none
  | (k, v, t) :: rest =>
    if k = resourceId then (if now < t + STORE_TTL then some v else none)
    else storeGet rest resourceId now

/-- Result of an upstream `axios.get`: a body plus optional content-type
header, or a thrown error. -/
inductive UpstreamResult where
  | ok (body : String) (contentType : Option String)
  | fail
deriving DecidableEq

/-- HTTP response as the routes produce it: status, content type, body. -/
structure HttpResponse where
  status : Nat
  contentType : Option String
  body : String
deriving DecidableEq, Repr

/-- JSON error body produced by `res.json(\x7b error: msg \x7d)`. -/
def jsonError (msg : String) : String :=
  "\x7b\"error\":\"" ++ msg ++ "\"\x7d"

/-- JS falsiness of an optional query-string value: absent or empty. -/
def jsFalsyStr (o : Option String) : Bool :=
  match o with
  | none => true
  | some s => s.data.isEmpty

/-- Embedding of the `GET /segment/resource` handler: parameter presence
check, token verification, store lookup, upstream fetch. -/
def segmentResourceHandler (hmac : String → String) (resourceId sig exp : Option String)
    (st : Store) (now : Nat) (fetch : String → UpstreamResult) : HttpResponse :=
  if jsFalsyStr resourceId || jsFalsyStr sig || jsFalsyStr exp then
    ⟨400, some "application/json", jsonError "Missing signed URL params"⟩
  else if !verifySignedUrl hmac (resourceId.getD "") (sig.getD "") (exp.getD "") "segment" now then
    ⟨400, some "application/json", jsonError "Invalid or expired signed URL"⟩
  else
    match storeGet st (resourceId.getD "") now with
    | none => ⟨404, some "application/json", jsonError "Resource not found or expired"⟩
    | some realUrl =>
      match fetch realUrl with
      | .fail => ⟨500, some "application/json", jsonError "Error fetching segment content"⟩
      | .ok body ct => ⟨200, some (ct.getD "application/octet-stream"), body⟩

/-- Line classification of the rewriter: `const trimmed = line.trim();
if (!trimmed || trimmed.startsWith('#')) return line;` — blank or
tag-prefixed lines pass through. -/
def isDirectiveLine (line : String) : Bool :=
  (jsTrim line).data.isEmpty || beginsWith "#" (jsTrim line)

/-- Embedding of `lines.map((line) => ...)` in the manifest route, with the
`uuidv4()` supply made explicit as `uuids` consumed at counter `i`, and the
`cache.set` side effects threaded through the store.  `resolve trimmed base`
models `new URL(trimmed, url).href` (WHATWG resolution, an external Node
builtin).  Returns the transformed lines, the next counter value, and the
updated store. -/
def transformLines (hmac : String → String) (resolve : String → String → String)
    (base : String) (now : Nat) (uuids : Nat → String) :
    List String → Nat → Store → List String × Nat × Store
  | [], i, st => ([], i, st)
  | line :: rest, i, st =>
    if isDirectiveLine line then
      let r := transformLines hmac resolve base now uuids rest i st
      (line :: r.1, r.2)
    else
      let u := uuids i
      let r := transformLines hmac resolve base now uuids rest (i + 1)
        (storePut st u (resolve (jsTrim line) base) now)
      (generateSignedUrl hmac u "segment" now :: r.1, r.2)

/-- Embedding of the `GET /` manifest route: check the `url` parameter, fetch
the remote text (`fetchText` models `axios.get` with the optional Referer
header folded in; `none` is a thrown error), pass through non-playlists as
`text/plain`, otherwise split on newlines, rewrite, and re-join. -/
def manifestHandler (hmac : String → String) (resolve : String → String → String)
    (url : Option String) (now : Nat) (uuids : Nat → String) (i : Nat) (st : Store)
    (fetchText : String → Option String) : HttpResponse × Nat × Store :=
  if jsFalsyStr url then
    (⟨400, some "application/json", jsonError "No URL provided"⟩, i, st)
  else
    match fetchText (url.getD "") with
    | none => (⟨500, some "application/json", jsonError "Failed to fetch M3U8 content"⟩, i, st)
    | some content =>
      if !beginsWith "#EXTM3U" content then
        (⟨200, some "text/plain", content⟩, i, st)
      else
        let r := transformLines hmac resolve (url.getD "") now uuids (jsSplitNL content) i st
        (⟨200, some "application/vnd.apple.mpegurl", String.intercalate "\n" r.1⟩, r.2.1, r.2.2)

theorem signPayload_inj_left (r1 r2 e k : String)
    (h : signPayload r1 e k = signPayload r2 e k) : r1 = r2 := by
  apply String.ext
  have hd := congrArg String.data h
  simp only [signPayload, String.data_append] at hd
  exact List.append_cancel_right (List.append_cancel_right hd)

theorem signPayload_inj_mid (r e1 e2 k : String)
    (h : signPayload r e1 k = signPayload r e2 k) : e1 = e2 := by
  apply String.ext
  have hd := congrArg String.data h
  simp only [signPayload, String.data_append] at hd
  exact List.append_cancel_left (List.append_cancel_right hd)

theorem signPayload_inj_right (r e k1 k2 : String)
    (h : signPayload r e k1 = signPayload r e k2) : k1 = k2 := by
  apply String.ext
  have hd := congrArg String.data h
  simp only [signPayload, String.data_append] at hd
  exact List.append_cancel_left hd

theorem expInPast_mintExp (t tq : Nat) (h : tq < t + TOKEN_VALIDITY) :
    expInPast (Nat.repr (mintExp t)) tq = false := by
  simp only [expInPast, jsParseInt_repr]
  simp only [decide_eq_false_iff_not, not_lt, mintExp]
  exact_mod_cast Nat.le_of_lt h

/-- C1: a token minted at time `t` for `(r, kind=segment)` carries expiry
`t + 600` embedded in the returned URL, and verifying its embedded
`(resourceId, signature, exp)` fields with `kind=segment` under the same
keyed hash succeeds at every time strictly before the expiry. -/
theorem token_roundtrip_validity (hmac : String → String) (r : String) (t tq : Nat)
    (h : tq < t + 600) :
    generateSignedUrl hmac r "segment" t
      = "/fetch/segment/resource?resourceId=" ++ r ++ "&sig=" ++
          mintSig hmac r "segment" t ++ "&exp=" ++ Nat.repr (mintExp t)
    ∧ mintExp t = t + 600
    ∧ verifySignedUrl hmac r (mintSig hmac r "segment" t)
        (Nat.repr (mintExp t)) "segment" tq = true := by
  refine ⟨rfl, rfl, ?_⟩
  unfold verifySignedUrl
  rw [expInPast_mintExp t tq h]
  simp [mintSig]

/-- Witness for C1 at `r = "r"`, mint time 0, verify time 42. -/
theorem token_roundtrip_validity_witness :
    generateSignedUrl id "r" "segment" 0
      = "/fetch/segment/resource?resourceId=" ++ "r" ++ "&sig=" ++
          mintSig id "r" "segment" 0 ++ "&exp=" ++ Nat.repr (mintExp 0)
    ∧ mintExp 0 = 0 + 600
    ∧ verifySignedUrl id "r" (mintSig id "r" "segment" 0)
        (Nat.repr (mintExp 0)) "segment" 42 = true :=
  token_roundtrip_validity id "r" 0 42 (by omega)

/-- C3: a token whose `exp` parameter parses to an integer strictly below the
current time fails verification, whatever signature is supplied — including
the correct keyed hash over `(resourceId, exp, kind)`. -/
theorem expiry_enforcement (hmac : String → String) (r sig exp kind : String)
    (now : Nat) (v : Int) (hparse : jsParseInt exp = some v)
    (hlt : v < (now : Int)) :
    verifySignedUrl hmac r sig exp kind now = false := by
  unfold verifySignedUrl
  have hp : expInPast exp now = true := by
    simp only [expInPast, hparse]
    simpa using hlt
  rw [hp]
  simp

/-- Witness for C3: `exp = "5"` with the correct signature at time 10. -/
theorem expiry_enforcement_witness :
    verifySignedUrl id "r" (id (signPayload "r" "5" "segment")) "5" "segment" 10 = false :=
  expiry_enforcement id "r" (id (signPayload "r" "5" "segment")) "5" "segment" 10 5
    (by decide) (by decide)

/-- C4: under a collision-free keyed hash, a minted token rejects every
substituted signature, and keeping the minted signature while substituting a
different `resourceId`, a different `exp` string, or a different `kind` than
the ones signed makes verification fail, at every verification time. -/
theorem tamper_detection (hmac : String → String) (hinj : Function.Injective hmac)
    (r kind : String) (t now : Nat) :
    (∀ s2, s2 ≠ mintSig hmac r kind t →
      verifySignedUrl hmac r s2 (Nat.repr (mintExp t)) kind now = false)
    ∧ (∀ r2, r2 ≠ r →
      verifySignedUrl hmac r2 (mintSig hmac r kind t) (Nat.repr (mintExp t)) kind now = false)
    ∧ (∀ e2, e2 ≠ Nat.repr (mintExp t) →
      verifySignedUrl hmac r (mintSig hmac r kind t) e2 kind now = false)
    ∧ (∀ k2, k2 ≠ kind →
      verifySignedUrl hmac r (mintSig hmac r kind t) (Nat.repr (mintExp t)) k2 now = false) := by
  refine ⟨?_, ?_, ?_, ?_⟩
  · intro s2 hne
    unfold verifySignedUrl
    cases hp : expInPast (Nat.repr (mintExp t)) now
    · simp only [Bool.false_eq_true, if_false]
      rw [beq_eq_false_iff_ne]
      simpa [mintSig] using hne
    · simp
  · intro r2 hne
    unfold verifySignedUrl
    cases hp : expInPast (Nat.repr (mintExp t)) now
    · simp only [Bool.false_eq_true, if_false]
      rw [beq_eq_false_iff_ne]
      intro hc
      exact hne (signPayload_inj_left r2 r _ _ (hinj hc.symm))
    · simp
  · intro e2 hne
    unfold verifySignedUrl
    cases hp : expInPast e2 now
    · simp only [Bool.false_eq_true, if_false]
      rw [beq_eq_false_iff_ne]
      intro hc
      exact hne (signPayload_inj_mid r _ e2 kind (hinj hc)).symm
    · simp
  · intro k2 hne
    unfold verifySignedUrl
    cases hp : expInPast (Nat.repr (mintExp t)) now
    · simp only [Bool.false_eq_true, if_false]
      rw [beq_eq_false_iff_ne]
      intro hc
      exact hne (signPayload_inj_right r _ kind k2 (hinj hc)).symm
    · simp

/-- Witness for C4 with the injective keyed hash `id`: a substituted
signature, resourceId, exp, and kind each fail. -/
theorem tamper_detection_witness :
    verifySignedUrl id "a" "forged" (Nat.repr (mintExp 0)) "segment" 0 = false
    ∧ verifySignedUrl id "b" (mintSig id "a" "segment" 0) (Nat.repr (mintExp 0)) "segment" 0 = false
    ∧ verifySignedUrl id "a" (mintSig id "a" "segment" 0) "601" "segment" 0 = false
    ∧ verifySignedUrl id "a" (mintSig id "a" "segment" 0) (Nat.repr (mintExp 0)) "image" 0 = false :=
  ⟨(tamper_detection id (fun _ _ h => h) "a" "segment" 0 0).1 "forged" (by decide),
   (tamper_detection id (fun _ _ h => h) "a" "segment" 0 0).2.1 "b" (by decide),
   (tamper_detection id (fun _ _ h => h) "a" "segment" 0 0).2.2.1 "601" (by decide),
   (tamper_detection id (fun _ _ h => h) "a" "segment" 0 0).2.2.2 "image" (by decide)⟩

/-- C7 counterexample: with the keyed hash modelled by an explicit function,
a non-numeric `exp` does not always fail verification — `parseInt` yields
`NaN`, the JS comparison `NaN < now` is false so the expiry guard does not
fire, and a signature matching the malformed payload is accepted. -/
theorem malformed_exp_counterexample :
    jsParseInt "abc" = none
    ∧ verifySignedUrl id "r" "rabcsegment" "abc" "segment" 100 = true := by
  constructor
  · decide
  · decide

/-- C7 amended: verification of a non-numeric `exp` never crashes (the
embedded `verifySignedUrl` is a total function), the expiry guard never
rejects it, and verification returns false whenever the supplied signature
differs from the keyed hash of `(resourceId, exp, kind)`. -/
theorem malformed_exp_amended (hmac : String → String) (r sig exp kind : String)
    (now : Nat) (hmal : jsParseInt exp = none)
    (hsig : sig ≠ hmac (signPayload r exp kind)) :
    expInPast exp now = false
    ∧ verifySignedUrl hmac r sig exp kind now = false := by
  have hp : expInPast exp now = false := by
    simp only [expInPast, hmal]
  refine ⟨hp, ?_⟩
  unfold verifySignedUrl
  rw [hp]
  simp only [Bool.false_eq_true, if_false]
  rw [beq_eq_false_iff_ne]
  exact hsig

/-- Witness for C7's amended claim at `exp = "abc"`, a wrong signature. -/
theorem malformed_exp_amended_witness :
    expInPast "abc" 100 = false
    ∧ verifySignedUrl id "r" "wrong" "abc" "segment" 100 = false :=
  malformed_exp_amended id "r" "wrong" "abc" "segment" 100 (by decide) (by decide)

theorem storeGet_nokey (a : Store) (k : String) (tq : Nat)
    (h : ∀ e ∈ a, e.1 ≠ k) : storeGet a k tq = none := by
  induction a with
  | nil => rfl
  | cons e rest ih =>
    obtain ⟨k0, v0, t0⟩ := e
    unfold storeGet
    rw [if_neg (h (k0, v0, t0) (by simp))]
    exact ih (fun e he => h e (by simp [he]))

theorem storeGet_append_of_nokey (a b : Store) (k : String) (tq : Nat)
    (h : ∀ e ∈ a, e.1 ≠ k) : storeGet (a ++ b) k tq = storeGet b k tq := by
  induction a with
  | nil => rfl
  | cons e rest ih =>
    obtain ⟨k0, v0, t0⟩ := e
    show storeGet ((k0, v0, t0) :: (rest ++ b)) k tq = storeGet b k tq
    conv_lhs => rw [storeGet]
    rw [if_neg (h (k0, v0, t0) (by simp))]
    exact ih (fun e he => h e (by simp [he]))

theorem storeGet_append_some (a b : Store) (k : String) (tq : Nat) (v : String)
    (h : storeGet a k tq = some v) : storeGet (a ++ b) k tq = some v := by
  induction a with
  | nil => exact absurd h (by simp [storeGet])
  | cons e rest ih =>
    obtain ⟨k0, v0, t0⟩ := e
    by_cases hk : k0 = k
    · show storeGet ((k0, v0, t0) :: (rest ++ b)) k tq = some v
      unfold storeGet
      rw [if_pos hk]
      unfold storeGet at h
      rw [if_pos hk] at h
      exact h
    · show storeGet ((k0, v0, t0) :: (rest ++ b)) k tq = some v
      unfold storeGet
      rw [if_neg hk]
      unfold storeGet at h
      rw [if_neg hk] at h
      exact ih h

/-- C5: with the default TTL of 600 seconds, an entry inserted at `tins` is
returned by a lookup at any time in the open interval `(tins, tins + TTL)`,
is absent at any time after `tins + TTL`, and an identifier never inserted is
absent as well — the same `none` in all absent cases. -/
theorem store_ttl (st : Store) (resourceId remoteUrl : String) (tins tq : Nat) :
    STORE_TTL = 600
    ∧ (tins < tq → tq < tins + STORE_TTL →
        storeGet (storePut st resourceId remoteUrl tins) resourceId tq = some remoteUrl)
    ∧ (tins + STORE_TTL < tq →
        storeGet (storePut st resourceId remoteUrl tins) resourceId tq = none)
    ∧ ((∀ e ∈ st, e.1 ≠ resourceId) → storeGet st resourceId tq = none) := by
  refine ⟨rfl, ?_, ?_, ?_⟩
  · intro _ h2
    unfold storePut storeGet
    rw [if_pos rfl, if_pos h2]
  · intro h
    unfold storePut storeGet
    rw [if_pos rfl, if_neg (by omega)]
  · exact storeGet_nokey st resourceId tq

/-- Witness for C5: an entry inserted at time 0 is readable at time 1,
absent at time 601, and a never-inserted identifier is absent. -/
theorem store_ttl_witness :
    storeGet (storePut [] "id1" "http://origin/seg.ts" 0) "id1" 1 = some "http://origin/seg.ts"
    ∧ storeGet (storePut [] "id1" "http://origin/seg.ts" 0) "id1" 601 = none
    ∧ storeGet ([("other", "u", 0)] : Store) "id1" 1 = none :=
  ⟨(store_ttl [] "id1" "http://origin/seg.ts" 0 1).2.1 (by decide) (by decide),
   (store_ttl [] "id1" "http://origin/seg.ts" 0 601).2.2.1 (by decide),
   (store_ttl [("other", "u", 0)] "id1" "http://origin/seg.ts" 0 1).2.2.2
     (by intro e he; simp at he; simp [he])⟩

theorem jsFalsyStr_some_ne (s : String) (h : s ≠ "") : jsFalsyStr (some s) = false := by
  unfold jsFalsyStr
  cases hd : s.data with
  | nil =>
    exact absurd (String.ext (hd.trans rfl)) h
  | cons a l => simp [hd]

/-- C6: the resolution endpoint's branch outcomes — 400 when a parameter is
missing, 400 when verification fails, 404 (not a server error) when the
token verifies but the identifier is absent from the store, 500 when the
upstream fetch fails, and 200 with the upstream body and content type
(defaulting to `application/octet-stream`) otherwise. -/
theorem resolution_error_taxonomy (hmac : String → String)
    (resourceId sig exp : Option String) (st : Store) (now : Nat)
    (fetch : String → UpstreamResult) :
    ((resourceId = none ∨ sig = none ∨ exp = none) →
      (segmentResourceHandler hmac resourceId sig exp st now fetch).status = 400)
    ∧ (∀ r s e, resourceId = some r → sig = some s → exp = some e →
        verifySignedUrl hmac r s e "segment" now = false →
        (segmentResourceHandler hmac resourceId sig exp st now fetch).status = 400)
    ∧ (∀ r s e, resourceId = some r → sig = some s → exp = some e →
        r ≠ "" → s ≠ "" → e ≠ "" →
        verifySignedUrl hmac r s e "segment" now = true →
        storeGet st r now = none →
        segmentResourceHandler hmac resourceId sig exp st now fetch
          = ⟨404, some "application/json", jsonError "Resource not found or expired"⟩)
    ∧ (∀ r s e u, resourceId = some r → sig = some s → exp = some e →
        r ≠ "" → s ≠ "" → e ≠ "" →
        verifySignedUrl hmac r s e "segment" now = true →
        storeGet st r now = some u → fetch u = UpstreamResult.fail →
        segmentResourceHandler hmac resourceId sig exp st now fetch
          = ⟨500, some "application/json", jsonError "Error fetching segment content"⟩)
    ∧ (∀ r s e u body ct, resourceId = some r → sig = some s → exp = some e →
        r ≠ "" → s ≠ "" → e ≠ "" →
        verifySignedUrl hmac r s e "segment" now = true →
        storeGet st r now = some u → fetch u = UpstreamResult.ok body ct →
        segmentResourceHandler hmac resourceId sig exp st now fetch
          = ⟨200, some (ct.getD "application/octet-stream"), body⟩) := by
  refine ⟨?_, ?_, ?_, ?_, ?_⟩
  · intro hmiss
    unfold segmentResourceHandler
    have : (jsFalsyStr resourceId || jsFalsyStr sig || jsFalsyStr exp) = true := by
      rcases hmiss with h | h | h <;> subst h <;> simp [jsFalsyStr]
    rw [this]
    rfl
  · intro r s e hr hs he hv
    subst hr; subst hs; subst he
    unfold segmentResourceHandler
    by_cases hfal : (jsFalsyStr (some r) || jsFalsyStr (some s) || jsFalsyStr (some e)) = true
    · rw [hfal]; rfl
    · rw [Bool.not_eq_true] at hfal
      rw [hfal]
      simp only [Bool.false_eq_true, if_false, Option.getD_some]
      rw [hv]
      rfl
  · intro r s e hr hs he hr0 hs0 he0 hv hst
    subst hr; subst hs; subst he
    simp only [segmentResourceHandler, jsFalsyStr_some_ne r hr0, jsFalsyStr_some_ne s hs0,
      jsFalsyStr_some_ne e he0, Bool.or_self, Bool.false_eq_true, if_false,
      Option.getD_some, hv, Bool.not_true, hst]
  · intro r s e u hr hs he hr0 hs0 he0 hv hst hfet
    subst hr; subst hs; subst he
    simp only [segmentResourceHandler, jsFalsyStr_some_ne r hr0, jsFalsyStr_some_ne s hs0,
      jsFalsyStr_some_ne e he0, Bool.or_self, Bool.false_eq_true, if_false,
      Option.getD_some, hv, Bool.not_true, hst, hfet]
  · intro r s e u body ct hr hs he hr0 hs0 he0 hv hst hfet
    subst hr; subst hs; subst he
    simp only [segmentResourceHandler, jsFalsyStr_some_ne r hr0, jsFalsyStr_some_ne s hs0,
      jsFalsyStr_some_ne e he0, Bool.or_self, Bool.false_eq_true, if_false,
      Option.getD_some, hv, Bool.not_true, hst, hfet]

/-- Witness for C6: a correctly signed, unexpired token whose identifier was
never stored yields the 404 response. -/
theorem resolution_error_taxonomy_witness :
    segmentResourceHandler id (some "r") (some (id (signPayload "r" "600" "segment")))
        (some "600") [] 0 (fun _ => UpstreamResult.fail)
      = ⟨404, some "application/json", jsonError "Resource not found or expired"⟩ :=
  (resolution_error_taxonomy id (some "r") (some (id (signPayload "r" "600" "segment")))
      (some "600") [] 0 (fun _ => UpstreamResult.fail)).2.2.1
    "r" (id (signPayload "r" "600" "segment")) "600" rfl rfl rfl
    (by decide) (by decide) (by decide) (by decide) rfl

/-- C9 counterexample: a signature-mismatch failure and an unknown-identifier
failure are client-distinguishable — the former is the 400 "invalid or
expired" response, the latter the 404 "not found" response. -/
theorem uniform_rejection_counterexample :
    segmentResourceHandler id (some "r") (some "bad") (some "600") [] 0
        (fun _ => UpstreamResult.fail)
      ≠ segmentResourceHandler id (some "r") (some "r600segment") (some "600") [] 0
        (fun _ => UpstreamResult.fail) := by
  decide

/-- C9 amended: any two requests that fail token verification — whether by
signature mismatch or by expiry — receive identical responses (status and
body), but a verified token whose identifier is unknown to the store
receives a distinct 404 response. -/
theorem uniform_rejection_amended (hmac : String → String)
    (rA sA eA rB sB eB rC sC eC : String) (stA stB stC : Store) (now : Nat)
    (fA fB fC : String → UpstreamResult)
    (hA0 : rA ≠ "") (hA1 : sA ≠ "") (hA2 : eA ≠ "")
    (hB0 : rB ≠ "") (hB1 : sB ≠ "") (hB2 : eB ≠ "")
    (hC0 : rC ≠ "") (hC1 : sC ≠ "") (hC2 : eC ≠ "")
    (hvA : verifySignedUrl hmac rA sA eA "segment" now = false)
    (hvB : verifySignedUrl hmac rB sB eB "segment" now = false)
    (hvC : verifySignedUrl hmac rC sC eC "segment" now = true)
    (hsC : storeGet stC rC now = none) :
    segmentResourceHandler hmac (some rA) (some sA) (some eA) stA now fA
      = segmentResourceHandler hmac (some rB) (some sB) (some eB) stB now fB
    ∧ (segmentResourceHandler hmac (some rC) (some sC) (some eC) stC now fC).status = 404
    ∧ segmentResourceHandler hmac (some rC) (some sC) (some eC) stC now fC
        ≠ segmentResourceHandler hmac (some rA) (some sA) (some eA) stA now fA := by
  have hrespA : segmentResourceHandler hmac (some rA) (some sA) (some eA) stA now fA
      = ⟨400, some "application/json", jsonError "Invalid or expired signed URL"⟩ := by
    unfold segmentResourceHandler
    rw [jsFalsyStr_some_ne rA hA0, jsFalsyStr_some_ne sA hA1, jsFalsyStr_some_ne eA hA2]
    simp only [Bool.or_self, Bool.false_eq_true, if_false, Option.getD_some]
    rw [hvA]
    rfl
  have hrespB : segmentResourceHandler hmac (some rB) (some sB) (some eB) stB now fB
      = ⟨400, some "application/json", jsonError "Invalid or expired signed URL"⟩ := by
    unfold segmentResourceHandler
    rw [jsFalsyStr_some_ne rB hB0, jsFalsyStr_some_ne sB hB1, jsFalsyStr_some_ne eB hB2]
    simp only [Bool.or_self, Bool.false_eq_true, if_false, Option.getD_some]
    rw [hvB]
    rfl
  have hrespC : segmentResourceHandler hmac (some rC) (some sC) (some eC) stC now fC
      = ⟨404, some "application/json", jsonError "Resource not found or expired"⟩ := by
    simp only [segmentResourceHandler, jsFalsyStr_some_ne rC hC0, jsFalsyStr_some_ne sC hC1,
      jsFalsyStr_some_ne eC hC2, Bool.or_self, Bool.false_eq_true, if_false,
      Option.getD_some, hvC, Bool.not_true, hsC]
  refine ⟨hrespA.trans hrespB.symm, by rw [hrespC], ?_⟩
  rw [hrespA, hrespC]
  intro hcon
  exact absurd (congrArg HttpResponse.status hcon) (by decide)

/-- Witness for C9's amended claim: a bad-signature request and an
expired-token request get the same response; an unknown-id request gets a
different 404. -/
theorem uniform_rejection_amended_witness :
    segmentResourceHandler id (some "r") (some "bad") (some "700") [] 650
        (fun _ => UpstreamResult.fail)
      = segmentResourceHandler id (some "r") (some (id (signPayload "r" "600" "segment")))
        (some "600") [] 650 (fun _ => UpstreamResult.fail)
    ∧ (segmentResourceHandler id (some "r") (some (id (signPayload "r" "700" "segment")))
        (some "700") [] 650 (fun _ => UpstreamResult.fail)).status = 404
    ∧ segmentResourceHandler id (some "r") (some (id (signPayload "r" "700" "segment")))
        (some "700") [] 650 (fun _ => UpstreamResult.fail)
      ≠ segmentResourceHandler id (some "r") (some "bad") (some "700") [] 650
        (fun _ => UpstreamResult.fail) :=
  uniform_rejection_amended id "r" "bad" "700" "r" (id (signPayload "r" "600" "segment")) "600"
    "r" (id (signPayload "r" "700" "segment")) "700" [] [] [] 650
    (fun _ => UpstreamResult.fail) (fun _ => UpstreamResult.fail) (fun _ => UpstreamResult.fail)
    (by decide) (by decide) (by decide) (by decide) (by decide) (by decide)
    (by decide) (by decide) (by decide) (by decide) (by decide) (by decide) rfl

/-- C8: a fetched body that does not start with `#EXTM3U` is returned
byte-identical with content type `text/plain`, and the rewriting machinery
is untouched: no identifier is consumed from the supply and no entry is
inserted into the store. -/
theorem manifest_pass_through (hmac : String → String) (resolve : String → String → String)
    (url : String) (hurl : url ≠ "") (now : Nat) (uuids : Nat → String) (i : Nat)
    (st : Store) (fetchText : String → Option String) (content : String)
    (hf : fetchText url = some content)
    (hnot : beginsWith "#EXTM3U" content = false) :
    manifestHandler hmac resolve (some url) now uuids i st fetchText
      = (⟨200, some "text/plain", content⟩, i, st) := by
  simp only [manifestHandler, jsFalsyStr_some_ne url hurl, Bool.false_eq_true, if_false,
    Option.getD_some, hf, hnot, Bool.not_false, if_true]

/-- Witness for C8 on the body `"hello"`. -/
theorem manifest_pass_through_witness :
    manifestHandler id (fun r _ => r) (some "http://h/x.m3u8") 0 (fun n => Nat.repr n) 3
        [("k", "v", 0)] (fun _ => some "hello")
      = (⟨200, some "text/plain", "hello"⟩, 3, [("k", "v", 0)]) :=
  manifest_pass_through id (fun r _ => r) "http://h/x.m3u8" (by decide) 0
    (fun n => Nat.repr n) 3 [("k", "v", 0)] (fun _ => some "hello") "hello" rfl (by decide)

/-- Number of reference (rewritten) lines in a line list. -/
def refCount (lines : List String) : Nat :=
  lines.countP (fun l => !isDirectiveLine l)

/-- Number of reference lines strictly before index `idx`. -/
def refCountBefore (lines : List String) (idx : Nat) : Nat :=
  refCount (lines.take idx)

/-- Closed form of the lines produced by `transformLines` starting at
counter `i`. -/
def rewriteOut (hmac : String → String) (now : Nat) (uuids : Nat → String) :
    List String → Nat → List String
  | [], _ => []
  | line :: rest, i =>
    if isDirectiveLine line then line :: rewriteOut hmac now uuids rest i
    else generateSignedUrl hmac (uuids i) "segment" now :: rewriteOut hmac now uuids rest (i + 1)

/-- Closed form of the store entries prepended by `transformLines` starting
at counter `i` (most recent first). -/
def rewriteEntries (resolve : String → String → String) (base : String) (now : Nat)
    (uuids : Nat → String) : List String → Nat → Store
  | [], _ => []
  | line :: rest, i =>
    if isDirectiveLine line then rewriteEntries resolve base now uuids rest i
    else rewriteEntries resolve base now uuids rest (i + 1)
      ++ [(uuids i, resolve (jsTrim line) base, now)]

theorem transformLines_eq (hmac : String → String) (resolve : String → String → String)
    (base : String) (now : Nat) (uuids : Nat → String) :
    ∀ (lines : List String) (i : Nat) (st : Store),
      transformLines hmac resolve base now uuids lines i st
        = (rewriteOut hmac now uuids lines i,
           i + refCount lines,
           rewriteEntries resolve base now uuids lines i ++ st) := by
  intro lines
  induction lines with
  | nil =>
    intro i st
    simp [transformLines, rewriteOut, rewriteEntries, refCount]
  | cons line rest ih =>
    intro i st
    by_cases hd : isDirectiveLine line = true
    · simp only [transformLines, hd, if_true, ih, rewriteOut, rewriteEntries, refCount,
        List.countP_cons, Bool.not_true, Bool.false_eq_true, if_false, Nat.add_zero]
    · rw [Bool.not_eq_true] at hd
      simp only [transformLines, hd, Bool.false_eq_true, if_false, ih, rewriteOut,
        rewriteEntries, refCount, List.countP_cons, Bool.not_false, if_true]
      refine congrArg _ ?_
      rw [Prod.mk.injEq]
      constructor
      · omega
      · rw [List.append_assoc]
        rfl

theorem rewriteOut_length (hmac : String → String) (now : Nat) (uuids : Nat → String) :
    ∀ (lines : List String) (i : Nat),
      (rewriteOut hmac now uuids lines i).length = lines.length := by
  intro lines
  induction lines with
  | nil => intro i; rfl
  | cons line rest ih =>
    intro i
    by_cases hd : isDirectiveLine line = true
    · simp [rewriteOut, hd, ih]
    · rw [Bool.not_eq_true] at hd
      simp [rewriteOut, hd, ih]

theorem rewriteOut_directive (hmac : String → String) (now : Nat) (uuids : Nat → String) :
    ∀ (lines : List String) (i idx : Nat) (line : String),
      lines[idx]? = some line → isDirectiveLine line = true →
      (rewriteOut hmac now uuids lines i)[idx]? = some line := by
  intro lines
  induction lines with
  | nil => intro i idx line hget; simp at hget
  | cons l0 rest ih =>
    intro i idx line hget hdir
    cases idx with
    | zero =>
      rw [List.getElem?_cons_zero, Option.some.injEq] at hget
      subst hget
      simp [rewriteOut, hdir]
    | succ idx =>
      rw [List.getElem?_cons_succ] at hget
      by_cases hd : isDirectiveLine l0 = true
      · simp only [rewriteOut, hd, if_true, List.getElem?_cons_succ]
        exact ih i idx line hget hdir
      · rw [Bool.not_eq_true] at hd
        simp only [rewriteOut, hd, Bool.false_eq_true, if_false, List.getElem?_cons_succ]
        exact ih (i + 1) idx line hget hdir

theorem refCountBefore_zero (lines : List String) : refCountBefore lines 0 = 0 := by
  simp [refCountBefore, refCount]

theorem refCountBefore_cons_succ (l0 : String) (rest : List String) (idx : Nat) :
    refCountBefore (l0 :: rest) (idx + 1)
      = refCountBefore rest idx + (if isDirectiveLine l0 then 0 else 1) := by
  simp only [refCountBefore, refCount, List.take_succ_cons, List.countP_cons]
  by_cases hd : isDirectiveLine l0 = true
  · simp [hd]
  · rw [Bool.not_eq_true] at hd
    simp [hd]

theorem rewriteOut_ref (hmac : String → String) (now : Nat) (uuids : Nat → String) :
    ∀ (lines : List String) (i idx : Nat) (line : String),
      lines[idx]? = some line → isDirectiveLine line = false →
      (rewriteOut hmac now uuids lines i)[idx]?
        = some (generateSignedUrl hmac (uuids (i + refCountBefore lines idx)) "segment" now) := by
  intro lines
  induction lines with
  | nil => intro i idx line hget; simp at hget
  | cons l0 rest ih =>
    intro i idx line hget hdir
    cases idx with
    | zero =>
      rw [List.getElem?_cons_zero, Option.some.injEq] at hget
      subst hget
      rw [refCountBefore_zero, Nat.add_zero]
      simp [rewriteOut, hdir]
    | succ idx =>
      rw [List.getElem?_cons_succ] at hget
      rw [refCountBefore_cons_succ]
      by_cases hd : isDirectiveLine l0 = true
      · simp only [rewriteOut, hd, if_true, List.getElem?_cons_succ, Nat.add_zero]
        exact ih i idx line hget hdir
      · rw [Bool.not_eq_true] at hd
        simp only [rewriteOut, hd, Bool.false_eq_true, if_false, List.getElem?_cons_succ]
        rw [show i + (refCountBefore rest idx + 1) = (i + 1) + refCountBefore rest idx by omega]
        exact ih (i + 1) idx line hget hdir

theorem rewriteEntries_keys (resolve : String → String → String) (base : String)
    (now : Nat) (uuids : Nat → String) :
    ∀ (lines : List String) (j : Nat),
      ∀ e ∈ rewriteEntries resolve base now uuids lines j, ∃ m, j ≤ m ∧ e.1 = uuids m := by
  intro lines
  induction lines with
  | nil => intro j e he; simp [rewriteEntries] at he
  | cons l0 rest ih =>
    intro j e he
    by_cases hd : isDirectiveLine l0 = true
    · rw [rewriteEntries, if_pos hd] at he
      exact ih j e he
    · rw [Bool.not_eq_true] at hd
      rw [rewriteEntries, if_neg (by simp [hd])] at he
      rcases List.mem_append.1 he with h1 | h2
      · obtain ⟨m, hm, he1⟩ := ih (j + 1) e h1
        exact ⟨m, by omega, he1⟩
      · simp at h2
        exact ⟨j, le_refl j, by rw [h2]⟩

theorem rewriteEntries_lookup (resolve : String → String → String) (base : String)
    (now : Nat) (uuids : Nat → String) (hinj : Function.Injective uuids) :
    ∀ (lines : List String) (j idx : Nat) (line : String),
      lines[idx]? = some line → isDirectiveLine line = false →
      storeGet (rewriteEntries resolve base now uuids lines j)
          (uuids (j + refCountBefore lines idx)) now
        = some (resolve (jsTrim line) base) := by
  intro lines
  induction lines with
  | nil => intro j idx line hget; simp at hget
  | cons l0 rest ih =>
    intro j idx line hget hdir
    cases idx with
    | zero =>
      rw [List.getElem?_cons_zero, Option.some.injEq] at hget
      subst hget
      rw [refCountBefore_zero, Nat.add_zero]
      rw [rewriteEntries, if_neg (by simp [hdir])]
      rw [storeGet_append_of_nokey _ _ _ _ (by
        intro e he
        obtain ⟨m, hm, he1⟩ := rewriteEntries_keys resolve base now uuids rest (j + 1) e he
        rw [he1]
        intro hc
        have := hinj hc
        omega)]
      unfold storeGet
      rw [if_pos rfl, if_pos (by simp [STORE_TTL])]
    | succ idx =>
      rw [List.getElem?_cons_succ] at hget
      rw [refCountBefore_cons_succ]
      by_cases hd : isDirectiveLine l0 = true
      · rw [rewriteEntries, if_pos hd, hd, if_pos rfl, Nat.add_zero]
        exact ih j idx line hget hdir
      · rw [Bool.not_eq_true] at hd
        rw [rewriteEntries, if_neg (by simp [hd]), hd, if_neg (by simp)]
        rw [show j + (refCountBefore rest idx + 1) = (j + 1) + refCountBefore rest idx by omega]
        exact storeGet_append_some _ _ _ _ _ (ih (j + 1) idx line hget hdir)

theorem countP_directive_split (lines : List String) :
    lines.countP isDirectiveLine + refCount lines = lines.length := by
  induction lines with
  | nil => rfl
  | cons l rest ih =>
    simp only [refCount, List.countP_cons, List.length_cons]
    simp only [refCount] at ih
    by_cases hd : isDirectiveLine l = true <;> simp [hd] <;> omega

theorem Nat_repr_injective : Function.Injective Nat.repr := by
  intro a b h
  have h2 := congrArg jsParseInt h
  rw [jsParseInt_repr, jsParseInt_repr, Option.some.injEq] at h2
  exact_mod_cast h2

/-- C2: for a fetched manifest body starting with `#EXTM3U`, the route's
response body is the transformed line list re-joined on newlines; the
directive-line and reference-line counts add up to the line count, the
output has as many lines as the input, every directive line reappears
unchanged at its original index, and every reference line is replaced by the
signed local URL of a freshly drawn identifier which the resulting store
maps to the reference's trimmed text resolved against the manifest's own
fetch URL (`resolve` models the WHATWG `new URL(trimmed, base).href`
builtin). -/
theorem manifest_rewrite_shape (hmac : String → String) (resolve : String → String → String)
    (uuids : Nat → String) (hinj : Function.Injective uuids)
    (url content : String) (hurl : url ≠ "")
    (fetchText : String → Option String) (hf : fetchText url = some content)
    (hm3u : beginsWith "#EXTM3U" content = true) (now i : Nat) (st : Store) :
    manifestHandler hmac resolve (some url) now uuids i st fetchText
      = (⟨200, some "application/vnd.apple.mpegurl",
          String.intercalate "\n" (rewriteOut hmac now uuids (jsSplitNL content) i)⟩,
         i + refCount (jsSplitNL content),
         rewriteEntries resolve url now uuids (jsSplitNL content) i ++ st)
    ∧ (jsSplitNL content).countP isDirectiveLine + refCount (jsSplitNL content)
        = (jsSplitNL content).length
    ∧ (rewriteOut hmac now uuids (jsSplitNL content) i).length = (jsSplitNL content).length
    ∧ (∀ (idx : Nat) (line : String), (jsSplitNL content)[idx]? = some line → isDirectiveLine line = true →
        (rewriteOut hmac now uuids (jsSplitNL content) i)[idx]? = some line)
    ∧ (∀ (idx : Nat) (line : String), (jsSplitNL content)[idx]? = some line → isDirectiveLine line = false →
        (rewriteOut hmac now uuids (jsSplitNL content) i)[idx]?
          = some (generateSignedUrl hmac
              (uuids (i + refCountBefore (jsSplitNL content) idx)) "segment" now)
        ∧ storeGet (rewriteEntries resolve url now uuids (jsSplitNL content) i ++ st)
            (uuids (i + refCountBefore (jsSplitNL content) idx)) now
          = some (resolve (jsTrim line) url)) := by
  refine ⟨?_, countP_directive_split _, rewriteOut_length hmac now uuids (jsSplitNL content) i,
    fun idx line hget hdir =>
      rewriteOut_directive hmac now uuids (jsSplitNL content) i idx line hget hdir,
    fun idx line hget hdir =>
      ⟨rewriteOut_ref hmac now uuids (jsSplitNL content) i idx line hget hdir,
       storeGet_append_some _ _ _ _ _
         (rewriteEntries_lookup resolve url now uuids hinj (jsSplitNL content) i idx line
           hget hdir)⟩⟩
  simp only [manifestHandler, jsFalsyStr_some_ne url hurl, Bool.false_eq_true, if_false,
    Option.getD_some, hf, hm3u, Bool.not_true,
    transformLines_eq hmac resolve url now uuids (jsSplitNL content) i st]

/-- Witness for C2 on the manifest `#EXTM3U\n#EXTINF:10,\nseg1.ts` fetched
from `http://h/x.m3u8` with decimal identifiers. -/
theorem manifest_rewrite_shape_witness :
    manifestHandler id (fun r b => b ++ r) (some "http://h/x.m3u8") 0 Nat.repr 0 []
        (fun _ => some "#EXTM3U\n#EXTINF:10,\nseg1.ts")
      = (⟨200, some "application/vnd.apple.mpegurl",
          String.intercalate "\n"
            (rewriteOut id 0 Nat.repr (jsSplitNL "#EXTM3U\n#EXTINF:10,\nseg1.ts") 0)⟩,
         0 + refCount (jsSplitNL "#EXTM3U\n#EXTINF:10,\nseg1.ts"),
         rewriteEntries (fun r b => b ++ r) "http://h/x.m3u8" 0 Nat.repr
           (jsSplitNL "#EXTM3U\n#EXTINF:10,\nseg1.ts") 0 ++ [])
    ∧ (jsSplitNL "#EXTM3U\n#EXTINF:10,\nseg1.ts").countP isDirectiveLine
        + refCount (jsSplitNL "#EXTM3U\n#EXTINF:10,\nseg1.ts")
        = (jsSplitNL "#EXTM3U\n#EXTINF:10,\nseg1.ts").length
    ∧ (rewriteOut id 0 Nat.repr (jsSplitNL "#EXTM3U\n#EXTINF:10,\nseg1.ts") 0).length
        = (jsSplitNL "#EXTM3U\n#EXTINF:10,\nseg1.ts").length
    ∧ (∀ (idx : Nat) (line : String), (jsSplitNL "#EXTM3U\n#EXTINF:10,\nseg1.ts")[idx]? = some line →
        isDirectiveLine line = true →
        (rewriteOut id 0 Nat.repr (jsSplitNL "#EXTM3U\n#EXTINF:10,\nseg1.ts") 0)[idx]?
          = some line)
    ∧ (∀ (idx : Nat) (line : String), (jsSplitNL "#EXTM3U\n#EXTINF:10,\nseg1.ts")[idx]? = some line →
        isDirectiveLine line = false →
        (rewriteOut id 0 Nat.repr (jsSplitNL "#EXTM3U\n#EXTINF:10,\nseg1.ts") 0)[idx]?
          = some (generateSignedUrl id
              (Nat.repr (0 + refCountBefore (jsSplitNL "#EXTM3U\n#EXTINF:10,\nseg1.ts") idx))
              "segment" 0)
        ∧ storeGet (rewriteEntries (fun r b => b ++ r) "http://h/x.m3u8" 0 Nat.repr
              (jsSplitNL "#EXTM3U\n#EXTINF:10,\nseg1.ts") 0 ++ [])
            (Nat.repr (0 + refCountBefore (jsSplitNL "#EXTM3U\n#EXTINF:10,\nseg1.ts") idx)) 0
          = some ((fun r b => b ++ r) (jsTrim line) "http://h/x.m3u8")) :=
  manifest_rewrite_shape id (fun r b => b ++ r) Nat.repr Nat_repr_injective
    "http://h/x.m3u8" "#EXTM3U\n#EXTINF:10,\nseg1.ts" (by decide)
    (fun _ => some "#EXTM3U\n#EXTINF:10,\nseg1.ts") rfl (by decide) 0 0 []

theorem dropWhile_eq_self_of_all (p : Char → Bool) :
    ∀ (l : List Char), (∀ c ∈ l, p c = false) → l.dropWhile p = l := by
  intro l
  induction l with
  | nil => intro; rfl
  | cons x xs ih =>
    intro h
    rw [List.dropWhile_cons, h x (by simp)]
    simp

theorem trimChars_eq_self (pre mid last : List Char)
    (hpre : pre.dropWhile Char.isWhitespace = pre) (hprene : pre.isEmpty = false)
    (hlast : ∀ c ∈ last, Char.isWhitespace c = false) (hlastne : last ≠ []) :
    (((pre ++ (mid ++ last)).dropWhile Char.isWhitespace).reverse.dropWhile
        Char.isWhitespace).reverse
      = pre ++ (mid ++ last) := by
  rw [List.dropWhile_append, hpre, hprene]
  simp only [Bool.false_eq_true, if_false]
  rw [List.reverse_append, List.reverse_append]
  rw [← List.append_assoc, List.dropWhile_append]
  rw [List.dropWhile_append]
  rw [dropWhile_eq_self_of_all Char.isWhitespace last.reverse
    (fun c hc => hlast c (List.mem_reverse.1 hc))]
  have hrevne : last.reverse.isEmpty = false := by
    cases hl : last.reverse with
    | nil => exact absurd (List.reverse_eq_nil_iff.1 hl) hlastne
    | cons a l => rfl
  rw [hrevne]
  simp only [Bool.false_eq_true, if_false]
  have : (last.reverse ++ mid.reverse).isEmpty = false := by
    cases hl : last.reverse with
    | nil => exact absurd (List.reverse_eq_nil_iff.1 hl) hlastne
    | cons a l => rfl
  rw [this]
  simp only [Bool.false_eq_true, if_false]
  simp [List.reverse_append]

/-- The signed local URL emitted for a reference line carries no surrounding
whitespace: it starts with the fixed `/fetch/...` path and ends with the
decimal expiry digits. -/
theorem jsTrim_generateSignedUrl (hmac : String → String) (u type : String) (now : Nat) :
    jsTrim (generateSignedUrl hmac u type now) = generateSignedUrl hmac u type now := by
  have hdata : (generateSignedUrl hmac u type now).data
      = "/fetch/segment/resource?resourceId=".data
        ++ ((u.data ++ ("&sig=".data ++ ((mintSig hmac u type now).data ++ "&exp=".data)))
          ++ (Nat.repr (mintExp now)).data) := by
    simp [generateSignedUrl, String.data_append, List.append_assoc]
  apply String.ext
  show (((generateSignedUrl hmac u type now).data.dropWhile Char.isWhitespace).reverse.dropWhile
      Char.isWhitespace).reverse = (generateSignedUrl hmac u type now).data
  rw [hdata]
  refine trimChars_eq_self _ _ _ (by decide) (by decide) ?_ ?_
  · rw [repr_data]
    intro c hc
    exact (natDigits_all_digit (mintExp now) c hc).2.1
  · rw [repr_data]
    exact natDigits_ne_nil (mintExp now)

/-- Trailing carriage returns (from CRLF manifests) are stripped by the JS
trim the rewriter applies to each line. -/
theorem jsTrim_append_cr (line : String) : jsTrim (line ++ "\r") = jsTrim line := by
  apply String.ext
  show (((line ++ "\r").data.dropWhile Char.isWhitespace).reverse.dropWhile
      Char.isWhitespace).reverse
    = ((line.data.dropWhile Char.isWhitespace).reverse.dropWhile Char.isWhitespace).reverse
  rw [String.data_append, List.dropWhile_append]
  by_cases he : (line.data.dropWhile Char.isWhitespace).isEmpty = true
  · rw [he]
    simp only [if_true]
    rw [List.isEmpty_iff] at he
    rw [he]
    rfl
  · rw [Bool.not_eq_true] at he
    rw [he]
    simp only [Bool.false_eq_true, if_false]
    rw [List.reverse_append]
    show (List.dropWhile Char.isWhitespace
        ('\r' :: (line.data.dropWhile Char.isWhitespace).reverse)).reverse = _
    rw [List.dropWhile_cons]
    simp

/-- C10: a reference line is stored and signed from its whitespace-trimmed
text (a trailing CR included), the emitted replacement line is the signed
URL itself with no surrounding whitespace, and directive or blank lines are
emitted verbatim, original whitespace intact. -/
theorem reference_line_trimming (hmac : String → String) (resolve : String → String → String)
    (base : String) (now : Nat) (uuids : Nat → String) (i : Nat) (st : Store) (line : String) :
    (isDirectiveLine line = false →
      transformLines hmac resolve base now uuids [line] i st
        = ([generateSignedUrl hmac (uuids i) "segment" now], i + 1,
           storePut st (uuids i) (resolve (jsTrim line) base) now)
      ∧ jsTrim (generateSignedUrl hmac (uuids i) "segment" now)
          = generateSignedUrl hmac (uuids i) "segment" now)
    ∧ (isDirectiveLine line = true →
        transformLines hmac resolve base now uuids [line] i st = ([line], i, st))
    ∧ jsTrim (line ++ "\r") = jsTrim line := by
  refine ⟨?_, ?_, jsTrim_append_cr line⟩
  · intro hdir
    refine ⟨?_, jsTrim_generateSignedUrl hmac (uuids i) "segment" now⟩
    simp [transformLines, hdir]
  · intro hdir
    simp [transformLines, hdir]

/-- Witness for C10 on the CRLF reference line `" seg1.ts\r"`. -/
theorem reference_line_trimming_witness :
    transformLines id (fun r b => b ++ r) "http://h/" 7 Nat.repr [" seg1.ts\r"] 0 []
      = ([generateSignedUrl id (Nat.repr 0) "segment" 7], 0 + 1,
         storePut [] (Nat.repr 0) ((fun r b => b ++ r) (jsTrim " seg1.ts\r") "http://h/") 7)
    ∧ jsTrim (generateSignedUrl id (Nat.repr 0) "segment" 7)
        = generateSignedUrl id (Nat.repr 0) "segment" 7 :=
  (reference_line_trimming id (fun r b => b ++ r) "http://h/" 7 Nat.repr 0 []
    " seg1.ts\r").1 (by decide)

end M3U8Proxy
